import Mathlib

/-!
Verification of the custom-ip-masks proxy server core.

The definitions below are a shallow embedding of the Python source:
`HeaderUtils.sanitize_headers` and `RateLimiter.is_allowed` from
`src/utils.py`, `ProxyChain.get_next_proxy` / `mark_proxy_failed` from
`src/utils.py`, and `ProxyServer._get_target_url`, `_prepare_headers`,
`_create_response`, `_rate_limit_exceeded`, `_handle_request` from
`src/proxy_server.py`.

Python dictionaries of headers are embedded as association lists
`List (String × String)` (insertion order preserved, keys unique in any
dict built by the code paths modelled); `dict.pop(k, None)` removes the
exactly-matching key, `dict.update` overwrites in place or appends.
Werkzeug response-header objects are case-insensitive: their `pop` and
item assignment compare names lowercased.  Time stamps are rationals
(Python floats from `time.time()`), the per-identifier deque is a
`List ℚ` with the oldest element first.  Randomness (`random.choice` of
a User-Agent) is passed in as an explicit argument.  Exceptions are
embedded as explicit outcome constructors.
-/

namespace IPMasks

/-- Python `str.lower()` restricted to what header names use (ASCII):
lower-case every character. -/
def strLower (s : String) : String :=
  ⟨s.data.map Char.toLower⟩

/-- Python `str.startswith(pre)`. -/
def strStartsWith (s pre : String) : Bool :=
  pre.data.isPrefixOf s.data

/-! ## Header dictionaries (`dict` of Python) -/

abbrev Headers := List (String × String)

/-- `d.pop(k, None)` on a Python dict: drop the exactly-matching key. -/
def dictPop (h : Headers) (k : String) : Headers :=
  h.filter (fun p => p.1 != k)

/-- `k in d` on a Python dict. -/
def hasKey (h : Headers) (k : String) : Bool :=
  h.any (fun p => p.1 == k)

/-- `d[k] = v` on a Python dict: overwrite in place, else append. -/
def dictSet (h : Headers) (k v : String) : Headers :=
  if hasKey h k then h.map (fun p => if p.1 == k then (k, v) else p)
  else h ++ [(k, v)]

/-- `d.update(adds)` on a Python dict. -/
def dictUpdate (h : Headers) (adds : Headers) : Headers :=
  adds.foldl (fun acc p => dictSet acc p.1 p.2) h

/-! ## `HeaderUtils` (src/utils.py) -/

/-- `HeaderUtils.PRIVACY_HEADERS`. -/
def PRIVACY_HEADERS : List String :=
  ["X-Forwarded-For", "X-Real-IP", "X-Originating-IP", "CF-Connecting-IP",
   "X-Forwarded-Proto", "X-Forwarded-Host", "X-Forwarded-Port", "Via",
   "Forwarded", "X-Client-IP", "X-Cluster-Client-IP", "X-Remote-Addr",
   "X-Remote-IP"]

/-- `HeaderUtils.sanitize_headers`. -/
def sanitize_headers (headers : Headers) (remove_privacy : Bool) : Headers :=
  let clean_headers :=
    if remove_privacy then PRIVACY_HEADERS.foldl dictPop headers else headers
  (["Host", "Content-Length"]).foldl dictPop clean_headers

/-! ## `ProxyServer` configuration defaults (src/proxy_server.py, `_default_config`) -/

/-- `_default_config()['remove_headers']`. -/
def remove_headers_default : List String :=
  ["X-Forwarded-For", "X-Real-IP", "X-Originating-IP", "CF-Connecting-IP"]

/-- `_default_config()['add_headers']`. -/
def add_headers_default : Headers :=
  [("X-Proxy-Server", "CustomProxy/1.0"),
   ("Accept-Encoding", "gzip, deflate"),
   ("Connection", "close")]

/-- `_default_config()['user_agents']`. -/
def user_agents_default : List String :=
  ["Mozilla/5.0 (Windows NT 10.0; Win64; x64) AppleWebKit/537.36",
   "Mozilla/5.0 (Macintosh; Intel Mac OS X 10_15_7) AppleWebKit/537.36",
   "Mozilla/5.0 (X11; Linux x86_64) AppleWebKit/537.36"]

/-! ## `ProxyServer._prepare_headers` (src/proxy_server.py) -/

/-- `ProxyServer._prepare_headers`: pop every configured removal name, pop
`Host` and `Content-Length`, apply the configured additions, then set a
User-Agent (`uaChoice` stands for the result of `random.choice`) when none
is present and the pool is non-empty. -/
def prepare_headers (removeList : List String) (addHeaders : Headers)
    (userAgents : List String) (uaChoice : String)
    (original_headers : Headers) : Headers :=
  let h1 := removeList.foldl dictPop original_headers
  let h2 := dictPop (dictPop h1 "Host") "Content-Length"
  let h3 := dictUpdate h2 addHeaders
  if !hasKey h3 "User-Agent" && !userAgents.isEmpty then
    dictSet h3 "User-Agent" uaChoice
  else h3

/-! ## `ProxyServer._get_target_url` (src/proxy_server.py) -/

/-- Python truthiness of an optional string (`if target_url:`). -/
def strTruthy : Option String → Bool
  | none => false
  | some s => !s.isEmpty

/-- `ProxyServer._get_target_url`: the `url` query parameter, then the
`X-Target-URL` header, then the path with `http://` prepended when it
lacks a scheme, else `None`. -/
def get_target_url (queryUrl headerUrl : Option String) (path : String) :
    Option String :=
  if strTruthy queryUrl then queryUrl
  else if strTruthy headerUrl then headerUrl
  else if !path.isEmpty then
    if strStartsWith path "http://" || strStartsWith path "https://" then some path
    else some ("http://" ++ path)
  else none

/-! ## `ProxyServer._create_response` (src/proxy_server.py) -/

/-- `requests.Response` as the dispatcher hands it over: status code, fully
read body bytes, headers. -/
structure UpstreamResponse where
  status_code : ℕ
  content : List ℕ
  headers : Headers
deriving DecidableEq

/-- The Flask `Response` the handler returns. -/
structure FlaskResponse where
  status : ℕ
  body : List ℕ
  headers : Headers
deriving DecidableEq

/-- Werkzeug `Headers.pop(k, None)`: header names compare case-insensitively. -/
def headersPopCI (h : Headers) (k : String) : Headers :=
  h.filter (fun p => strLower p.1 != strLower k)

/-- Werkzeug `headers[k] = v`: replace any same-named header (case-insensitive). -/
def headersSetCI (h : Headers) (k v : String) : Headers :=
  headersPopCI h k ++ [(k, v)]

/-- `ProxyServer._create_response`: copy status and body, copy headers minus
`Content-Encoding`, `Transfer-Encoding`, `Connection`, add `X-Proxied-By`. -/
def create_response (u : UpstreamResponse) : FlaskResponse :=
  let h1 := headersPopCI u.headers "Content-Encoding"
  let h2 := headersPopCI h1 "Transfer-Encoding"
  let h3 := headersPopCI h2 "Connection"
  { status := u.status_code
    body := u.content
    headers := headersSetCI h3 "X-Proxied-By" "CustomProxy/1.0" }

/-! ## `ProxyServer._handle_request` (src/proxy_server.py) -/

/-- Outcome of `_make_request` inside the handler's `try` block: a response,
a raised `requests.RequestException`, or any other raised `Exception`
(the latter also stands for an unexpected fault at any other step). -/
inductive DispatchResult where
  | ok (resp : UpstreamResponse)
  | requestError (msg : String)
  | otherError (msg : String)
deriving DecidableEq

/-- What `_handle_request` returns: a proxied response or a JSON error with
an HTTP status. -/
inductive HandleResult where
  | response (resp : FlaskResponse)
  | errorStatus (status : ℕ)
deriving DecidableEq

/-- `ProxyServer._rate_limit_exceeded`: `False` when rate limiting is
disabled, and the placeholder `False` otherwise. -/
def rate_limit_exceeded (enabled : Bool) : Bool :=
  if !enabled then false else false

/-- `ProxyServer._handle_request`: resolve the target (`400` when none),
prepare headers, check the rate limit (`429`), dispatch (`502` on
`requests.RequestException`, `500` on any other exception), else build
the response. -/
def handle_request (rateLimitEnabled : Bool) (removeList : List String)
    (addHeaders : Headers) (userAgents : List String) (uaChoice : String)
    (queryUrl headerUrl : Option String) (path : String)
    (inboundHeaders : Headers) (dispatch : DispatchResult) : HandleResult :=
  match get_target_url queryUrl headerUrl path with
  | none => .errorStatus 400
  | some _ =>
    let _hs := prepare_headers removeList addHeaders userAgents uaChoice inboundHeaders
    if rate_limit_exceeded rateLimitEnabled then .errorStatus 429
    else
      match dispatch with
      | .ok r => .response (create_response r)
      | .requestError _ => .errorStatus 502
      | .otherError _ => .errorStatus 500

/-! ## `RateLimiter` (src/utils.py) -/

/-- The eviction loop of `RateLimiter.is_allowed`: pop from the front while
the front timestamp is strictly older than `now - window_seconds`. -/
def evict (w now : ℚ) : List ℚ → List ℚ
  | [] => []
  | t :: ts => if t < now - w then evict w now ts else t :: ts

/-- `RateLimiter.is_allowed` for one identifier: evict, then admit and
append `now` when the remaining count is under `max_requests`, else deny
leaving the deque as evicted.  Returns (result, new deque). -/
def is_allowed (max_requests : ℕ) (w : ℚ) (reqs : List ℚ) (now : ℚ) :
    Bool × List ℚ :=
  let l := evict w now reqs
  if l.length < max_requests then (true, l ++ [now]) else (false, l)

/-- A sequence of `is_allowed` calls for one identifier at the given times,
threading the deque; returns the log of (time, result) pairs and the final
deque. -/
def rlRun (max_requests : ℕ) (w : ℚ) : List ℚ → List ℚ → List (ℚ × Bool) × List ℚ
  | s, [] => ([], s)
  | s, t :: ts =>
    let r := is_allowed max_requests w s t
    let rest := rlRun max_requests w r.2 ts
    ((t, r.1) :: rest.1, rest.2)

/-- Whether a timestamp lies in the trailing window of length `w` ending at
`T` (both ends included). -/
def inWindow (w T t : ℚ) : Bool :=
  decide (T - w ≤ t) && decide (t ≤ T)

/-- Number of admitted calls of a log whose times lie in the trailing
window of length `w` ending at `T`. -/
def winCount (w T : ℚ) (log : List (ℚ × Bool)) : ℕ :=
  (log.filter (fun p => p.2 && inWindow w T p.1)).length

/-! ## `ProxyChain` (src/utils.py) -/

/-- One proxy configuration dict: its `http` and `https` entries
(`proxy.get('http', '')` yields `""` when absent, so two strings model
the dict). -/
structure ProxyEndpoint where
  http : String
  https : String
deriving DecidableEq

/-- `f"{proxy.get('http', '')}_{proxy.get('https', '')}"`. -/
def proxy_id (p : ProxyEndpoint) : String :=
  p.http ++ "_" ++ p.https

/-- Fallback endpoint for out-of-range indexing (never reached while the
index invariant `current_index < len` holds). -/
def defaultEndpoint : ProxyEndpoint := ⟨"", ""⟩

/-- The mutable state of a `ProxyChain` instance. -/
structure ProxyChain where
  proxies : List ProxyEndpoint
  current_index : ℕ
  failed_proxies : Finset String
deriving DecidableEq

/-- The `for _ in range(len(self.proxies))` loop of `get_next_proxy`:
read the endpoint at the current index, advance the index modulo the pool
size, and stop at the first endpoint whose identifier is not failed.
Returns (found endpoint or none, index after the loop). -/
def scanChain (ps : List ProxyEndpoint) (failed : Finset String) :
    ℕ → ℕ → Option ProxyEndpoint × ℕ
  | 0, idx => (none, idx)
  | n + 1, idx =>
    let p := ps.getD idx defaultEndpoint
    let idx2 := (idx + 1) % ps.length
    if proxy_id p ∈ failed then scanChain ps failed n idx2 else (some p, idx2)

/-- `ProxyChain.get_next_proxy`: `None` on an empty pool; otherwise scan at
most `len` endpoints; when all are failed, clear the failed set and return
the endpoint at index 0. -/
def get_next_proxy (c : ProxyChain) : Option ProxyEndpoint × ProxyChain :=
  if c.proxies.isEmpty then (none, c)
  else
    match scanChain c.proxies c.failed_proxies c.proxies.length c.current_index with
    | (some p, idx2) => (some p, { c with current_index := idx2 })
    | (none, idx2) =>
      (c.proxies.head?, { c with current_index := idx2, failed_proxies := ∅ })

/-- `ProxyChain.mark_proxy_failed`. -/
def mark_proxy_failed (c : ProxyChain) (p : ProxyEndpoint) : ProxyChain :=
  { c with failed_proxies := insert (proxy_id p) c.failed_proxies }

/-- `n` consecutive `get_next_proxy` calls, collecting the returned
endpoints and the final state. -/
def runChain : ProxyChain → ℕ → List (Option ProxyEndpoint) × ProxyChain
  | c, 0 => ([], c)
  | c, n + 1 =>
    let r := get_next_proxy c
    let rest := runChain r.2 n
    (r.1 :: rest.1, rest.2)

/-! ## Lemmas on header dictionaries -/

lemma hasKey_eq_false_iff (h : Headers) (k : String) :
    hasKey h k = false ↔ ∀ p ∈ h, p.1 ≠ k := by
  simp [hasKey, List.any_eq_true]

lemma mem_dictPop {h : Headers} {k : String} {p : String × String}
    (hp : p ∈ dictPop h k) : p ∈ h ∧ p.1 ≠ k := by
  simpa [dictPop, List.mem_filter, bne_iff_ne] using hp

lemma mem_dictSet {h : Headers} {k v : String} {p : String × String}
    (hp : p ∈ dictSet h k v) : p.1 = k ∨ p ∈ h := by
  unfold dictSet at hp
  by_cases hk : hasKey h k
  · simp only [hk, if_true] at hp
    obtain ⟨q, hq, he⟩ := List.mem_map.mp hp
    by_cases hqk : q.1 = k
    · left
      rw [← he]
      simp [hqk]
    · right
      rw [← he]
      simpa [hqk] using hq
  · simp only [hk, if_false] at hp
    rcases List.mem_append.mp hp with h1 | h1
    · exact Or.inr h1
    · left
      simp only [List.mem_singleton] at h1
      rw [h1]

lemma hasKey_dictPop_of {h : Headers} (k : String) {name : String}
    (hn : hasKey h name = false) : hasKey (dictPop h k) name = false := by
  rw [hasKey_eq_false_iff] at hn ⊢
  exact fun p hp => hn p (mem_dictPop hp).1

lemma hasKey_dictPop_self (h : Headers) (k : String) :
    hasKey (dictPop h k) k = false := by
  rw [hasKey_eq_false_iff]
  exact fun p hp => (mem_dictPop hp).2

lemma hasKey_foldl_dictPop_of (L : List String) {h : Headers} {name : String}
    (hn : hasKey h name = false) : hasKey (L.foldl dictPop h) name = false := by
  induction L generalizing h with
  | nil => exact hn
  | cons a L ih => exact ih (hasKey_dictPop_of a hn)

lemma hasKey_foldl_dictPop_self (L : List String) {name : String}
    (hmem : name ∈ L) (h : Headers) :
    hasKey (L.foldl dictPop h) name = false := by
  induction L generalizing h with
  | nil => cases hmem
  | cons a L ih =>
    rcases List.mem_cons.mp hmem with rfl | hmem2
    · exact hasKey_foldl_dictPop_of L (hasKey_dictPop_self h name)
    · exact ih hmem2 (dictPop h a)

lemma hasKey_dictSet_of {h : Headers} {k : String} (v : String) {name : String}
    (hk : k ≠ name) (hn : hasKey h name = false) :
    hasKey (dictSet h k v) name = false := by
  rw [hasKey_eq_false_iff] at hn ⊢
  intro p hp
  rcases mem_dictSet hp with h1 | h1
  · rw [h1]; exact hk
  · exact hn p h1

lemma hasKey_dictUpdate_of (adds : Headers) {h : Headers} {name : String}
    (ha : ∀ p ∈ adds, p.1 ≠ name) (hn : hasKey h name = false) :
    hasKey (dictUpdate h adds) name = false := by
  unfold dictUpdate
  induction adds generalizing h with
  | nil => exact hn
  | cons q adds ih =>
    simp only [List.foldl_cons]
    exact ih (fun p hp => ha p (List.mem_cons_of_mem q hp))
      (hasKey_dictSet_of q.2 (ha q (List.mem_cons_self q adds)) hn)

/-! ## Claims -/

/-- C1, counterexample: supplied with the lowercase name `x-forwarded-for`,
the header survives `_prepare_headers` under the default configuration even
though `X-Forwarded-For` is in the removal set and the two names match
case-insensitively — removal in the code is a case-sensitive `dict.pop`. -/
theorem C1_counterexample :
    "X-Forwarded-For" ∈ remove_headers_default ∧
    strLower "x-forwarded-for" = strLower "X-Forwarded-For" ∧
    hasKey (prepare_headers remove_headers_default add_headers_default
        user_agents_default "Mozilla/5.0 (X11; Linux x86_64) AppleWebKit/537.36"
        [("x-forwarded-for", "203.0.113.7")]) "x-forwarded-for" = true :=
  ⟨by decide, by decide, by decide⟩

/-- C1 (amended): for every inbound header mapping, the header transformer's
output contains no header whose name matches a name of the configured removal
set under case-sensitive (exact) comparison, provided the configured
additions and the User-Agent key do not reintroduce that name; names
differing only in letter case are not removed. -/
theorem C1_prepare_headers_removes_exact (removeList : List String)
    (addHeaders : Headers) (userAgents : List String) (uaChoice : String)
    (headers : Headers) (name : String)
    (hname : name ∈ removeList)
    (hadd : ∀ p ∈ addHeaders, p.1 ≠ name)
    (hua : name ≠ "User-Agent") :
    hasKey (prepare_headers removeList addHeaders userAgents uaChoice headers)
      name = false := by
  have h1 : hasKey (removeList.foldl dictPop headers) name = false :=
    hasKey_foldl_dictPop_self removeList hname headers
  have h2 : hasKey (dictPop (dictPop (removeList.foldl dictPop headers) "Host")
      "Content-Length") name = false :=
    hasKey_dictPop_of _ (hasKey_dictPop_of _ h1)
  have h3 := hasKey_dictUpdate_of addHeaders hadd h2
  simp only [prepare_headers]
  split
  · exact hasKey_dictSet_of uaChoice (Ne.symm hua) h3
  · exact h3

theorem C1_prepare_headers_removes_exact_witness :
    hasKey (prepare_headers remove_headers_default add_headers_default
        user_agents_default "Mozilla/5.0 (X11; Linux x86_64) AppleWebKit/537.36"
        [("X-Forwarded-For", "203.0.113.7"), ("Accept", "text/html")])
      "X-Forwarded-For" = false :=
  C1_prepare_headers_removes_exact _ _ _ _ _ _ (by decide) (by decide) (by decide)

/-- C3: target resolution returns the first non-empty candidate in the order
query parameter `url`, header `X-Target-URL`, then the path with `http://`
prepended when it lacks a scheme prefix; the query parameter wins over the
header; a bare path `example.com/x` resolves to `http://example.com/x`; when
none of the three is non-empty, resolution yields no target and the handler
answers 400. -/
theorem C3_target_resolution :
    (∀ (q h : Option String) (path : String),
        strTruthy q = true → get_target_url q h path = q) ∧
    (∀ (q h : Option String) (path : String),
        strTruthy q = false → strTruthy h = true → get_target_url q h path = h) ∧
    (∀ (q h : Option String) (path : String),
        strTruthy q = false → strTruthy h = false → path.isEmpty = false →
        (strStartsWith path "http://" || strStartsWith path "https://") = false →
        get_target_url q h path = some ("http://" ++ path)) ∧
    (∀ (q h : Option String) (path : String),
        strTruthy q = false → strTruthy h = false → path.isEmpty = false →
        (strStartsWith path "http://" || strStartsWith path "https://") = true →
        get_target_url q h path = some path) ∧
    (∀ (q h : Option String), strTruthy q = false → strTruthy h = false →
        get_target_url q h "" = none) ∧
    (∀ (rl : Bool) (rm : List String) (ah : Headers) (uas : List String)
        (ua : String) (q h : Option String) (ih : Headers) (d : DispatchResult),
        strTruthy q = false → strTruthy h = false →
        handle_request rl rm ah uas ua q h "" ih d = .errorStatus 400) ∧
    get_target_url (some "http://a.example/q") (some "http://b.example/h") "" =
      some "http://a.example/q" ∧
    get_target_url none none "example.com/x" = some "http://example.com/x" := by
  refine ⟨?_, ?_, ?_, ?_, ?_, ?_, by decide, by decide⟩
  · intro q h path hq
    simp [get_target_url, hq]
  · intro q h path hq hh
    simp [get_target_url, hq, hh]
  · intro q h path hq hh hp hs
    simp [get_target_url, hq, hh, hp, hs]
  · intro q h path hq hh hp hs
    simp [get_target_url, hq, hh, hp, hs]
  · intro q h hq hh
    simp only [get_target_url, hq, hh]
    rfl
  · intro rl rm ah uas ua q h ih d hq hh
    simp only [handle_request, get_target_url, hq, hh]
    rfl

theorem C3_target_resolution_witness :
    get_target_url (some "http://a/q") (some "http://b/h") "p" = some "http://a/q" ∧
    get_target_url none (some "http://b/h") "p" = some "http://b/h" ∧
    get_target_url none none "example.org/y" = some "http://example.org/y" :=
  ⟨C3_target_resolution.1 (some "http://a/q") (some "http://b/h") "p" (by decide),
   C3_target_resolution.2.1 none (some "http://b/h") "p" (by decide) (by decide),
   by
     rw [C3_target_resolution.2.2.1 none none "example.org/y" (by decide) (by decide)
       (by decide) (by decide)]
     decide⟩

/-- C6: the response builder copies the upstream status code and body
verbatim, its output headers are exactly the upstream headers minus
`Content-Encoding`, `Transfer-Encoding` and `Connection` (and any prior
`X-Proxied-By`) plus the fixed `X-Proxied-By` identification header; on a
200 upstream response with body `ok` the built response has status 200,
body `ok`, the identification header and none of the removed three. -/
theorem C6_response_builder :
    (∀ u : UpstreamResponse,
        (create_response u).status = u.status_code ∧
        (create_response u).body = u.content) ∧
    (∀ (u : UpstreamResponse) (p : String × String),
        p ∈ (create_response u).headers ↔
          ((p ∈ u.headers ∧ strLower p.1 ≠ strLower "Content-Encoding" ∧
            strLower p.1 ≠ strLower "Transfer-Encoding" ∧
            strLower p.1 ≠ strLower "Connection" ∧
            strLower p.1 ≠ strLower "X-Proxied-By") ∨
            p = ("X-Proxied-By", "CustomProxy/1.0"))) ∧
    create_response ⟨200, [111, 107],
        [("Content-Type", "text/plain"), ("Content-Encoding", "gzip"),
         ("Transfer-Encoding", "chunked"), ("Connection", "keep-alive")]⟩ =
      ⟨200, [111, 107],
        [("Content-Type", "text/plain"), ("X-Proxied-By", "CustomProxy/1.0")]⟩ := by
  refine ⟨fun u => ⟨rfl, rfl⟩, ?_, by decide⟩
  intro u p
  simp only [create_response, headersSetCI, headersPopCI, List.mem_append,
    List.mem_filter, List.mem_singleton, bne_iff_ne, ne_eq]
  tauto

/-- C7: the request handler maps every outcome to exactly one result: 400
when no target is resolved, 429 when the rate-limit check reports excess,
502 when dispatch raises `requests.RequestException`, 500 on any other
exception, and the built response on success; no outcome is left unmapped. -/
theorem C7_pipeline_total_mapping (rl : Bool) (rm : List String) (ah : Headers)
    (uas : List String) (ua : String) (q h : Option String) (path : String)
    (ih : Headers) (d : DispatchResult) :
    (get_target_url q h path = none ∧
      handle_request rl rm ah uas ua q h path ih d = .errorStatus 400) ∨
    ((∃ url, get_target_url q h path = some url) ∧ rate_limit_exceeded rl = true ∧
      handle_request rl rm ah uas ua q h path ih d = .errorStatus 429) ∨
    ((∃ url, get_target_url q h path = some url) ∧ (∃ m, d = .requestError m) ∧
      handle_request rl rm ah uas ua q h path ih d = .errorStatus 502) ∨
    ((∃ url, get_target_url q h path = some url) ∧ (∃ m, d = .otherError m) ∧
      handle_request rl rm ah uas ua q h path ih d = .errorStatus 500) ∨
    ((∃ url, get_target_url q h path = some url) ∧ ∃ r, d = .ok r ∧
      handle_request rl rm ah uas ua q h path ih d =
        .response (create_response r)) := by
  have hrl : rate_limit_exceeded rl = false := by cases rl <;> rfl
  cases htu : get_target_url q h path with
  | none =>
    left
    exact ⟨rfl, by simp [handle_request, htu]⟩
  | some url =>
    cases d with
    | ok r =>
      right; right; right; right
      exact ⟨⟨url, rfl⟩, r, rfl, by simp [handle_request, htu, hrl]⟩
    | requestError m =>
      right; right; left
      exact ⟨⟨url, rfl⟩, ⟨m, rfl⟩, by simp [handle_request, htu, hrl]⟩
    | otherError m =>
      right; right; right; left
      exact ⟨⟨url, rfl⟩, ⟨m, rfl⟩, by simp [handle_request, htu, hrl]⟩

/-- C8: with `max_requests = 2` and `window_seconds = 60`, calls at times
0, 10, 20 and 61 yield allowed, allowed, denied, allowed. -/
theorem C8_rate_limit_scenario :
    (rlRun 2 60 [] [0, 10, 20, 61]).1 =
      [(0, true), (10, true), (20, false), (61, true)] := by
  norm_num [rlRun, is_allowed, evict]

/-! ## Lemmas on the proxy chain -/

lemma getD_mem_of_lt {α : Type} (l : List α) (d : α) (i : ℕ) (h : i < l.length) :
    l.getD i d ∈ l := by
  rw [List.getD_eq_getElem?_getD, List.getElem?_eq_getElem h]
  exact List.getElem_mem h

lemma head?_eq_getD {α : Type} (l : List α) (d : α) (h : l ≠ []) :
    l.head? = some (l.getD 0 d) := by
  cases l with
  | nil => exact absurd rfl h
  | cons a t => rfl

/-- When every endpoint is failed, the scan loop finds nothing and advances
the index once per step. -/
lemma scanChain_all_failed {ps : List ProxyEndpoint} {failed : Finset String}
    (hall : ∀ p ∈ ps, proxy_id p ∈ failed) :
    ∀ (n idx : ℕ), idx < ps.length →
      scanChain ps failed n idx = (none, (idx + n) % ps.length) := by
  intro n
  induction n with
  | zero =>
    intro idx hidx
    simp [scanChain, Nat.mod_eq_of_lt hidx]
  | succ n ih =>
    intro idx hidx
    have hlen : 0 < ps.length := lt_of_le_of_lt (Nat.zero_le _) hidx
    have hfail : proxy_id (ps.getD idx defaultEndpoint) ∈ failed :=
      hall _ (getD_mem_of_lt ps defaultEndpoint idx hidx)
    have hidx2 : (idx + 1) % ps.length < ps.length := Nat.mod_lt _ hlen
    rw [scanChain, if_pos hfail, ih _ hidx2, Nat.mod_add_mod]
    congr 2
    omega

/-- With no endpoint failed, one `get_next_proxy` call returns the endpoint
at the current index and advances the index by one modulo the pool size. -/
lemma get_next_proxy_no_failed (c : ProxyChain)
    (hidx : c.current_index < c.proxies.length)
    (hf : c.failed_proxies = ∅) :
    get_next_proxy c = (some (c.proxies.getD c.current_index defaultEndpoint),
      { c with current_index := (c.current_index + 1) % c.proxies.length }) := by
  have hlen : 0 < c.proxies.length := lt_of_le_of_lt (Nat.zero_le _) hidx
  have hne : ¬ c.proxies.isEmpty = true := by
    simp [List.isEmpty_iff, List.ne_nil_of_length_pos hlen]
  obtain ⟨m, hm⟩ : ∃ m, c.proxies.length = m + 1 := ⟨c.proxies.length - 1, by omega⟩
  rw [get_next_proxy, if_neg hne, hm, scanChain, hf]
  simp [Finset.not_mem_empty, ← hm]

/-- Iterating `get_next_proxy` with no failures walks the pool round-robin
from the current index. -/
lemma runChain_no_failed :
    ∀ (n : ℕ) (c : ProxyChain), c.current_index < c.proxies.length →
      c.failed_proxies = ∅ →
      runChain c n =
        ((List.range n).map (fun k =>
            some (c.proxies.getD ((c.current_index + k) % c.proxies.length)
              defaultEndpoint)),
          { c with current_index := (c.current_index + n) % c.proxies.length }) := by
  intro n
  induction n with
  | zero =>
    intro c hidx hf
    simp [runChain, Nat.mod_eq_of_lt hidx]
  | succ n ih =>
    intro c hidx hf
    have hlen : 0 < c.proxies.length := lt_of_le_of_lt (Nat.zero_le _) hidx
    have hidx2 : (c.current_index + 1) % c.proxies.length < c.proxies.length :=
      Nat.mod_lt _ hlen
    have hrec := ih { c with current_index := (c.current_index + 1) % c.proxies.length }
      hidx2 hf
    rw [runChain, get_next_proxy_no_failed c hidx hf]
    simp only [hrec, List.range_succ_eq_map, List.map_cons, List.map_map,
      Prod.mk.injEq]
    refine And.intro ?_ ?_
    · refine congrArg₂ List.cons ?_ ?_
      · rw [Nat.add_zero, Nat.mod_eq_of_lt hidx]
      · refine List.map_congr_left fun k _ => ?_
        simp only [Function.comp_apply, Nat.succ_eq_add_one]
        rw [Nat.mod_add_mod,
          show c.current_index + 1 + k = c.current_index + (k + 1) from by omega]
    · rw [Nat.mod_add_mod,
        show c.current_index + 1 + n = c.current_index + (n + 1) from by omega]

/-- C4: when every endpoint of a non-empty pool is in the failed set,
`get_next_proxy` returns the endpoint at index 0 (not `None`) and leaves
the failed set empty. -/
theorem C4_all_failed_reset (c : ProxyChain)
    (hidx : c.current_index < c.proxies.length)
    (hall : ∀ p ∈ c.proxies, proxy_id p ∈ c.failed_proxies) :
    (get_next_proxy c).1 = some (c.proxies.getD 0 defaultEndpoint) ∧
    (get_next_proxy c).2.failed_proxies = ∅ := by
  have hlen : 0 < c.proxies.length := lt_of_le_of_lt (Nat.zero_le _) hidx
  have hnil : c.proxies ≠ [] := List.ne_nil_of_length_pos hlen
  have hne : ¬ c.proxies.isEmpty = true := by simp [List.isEmpty_iff, hnil]
  rw [get_next_proxy, if_neg hne, scanChain_all_failed hall _ _ hidx]
  exact ⟨head?_eq_getD c.proxies defaultEndpoint hnil, rfl⟩

theorem C4_all_failed_reset_witness :
    (get_next_proxy ⟨[⟨"hp1", "sp1"⟩, ⟨"hp2", "sp2"⟩], 0,
        {"hp1_sp1", "hp2_sp2"}⟩).1 =
      some (([⟨"hp1", "sp1"⟩, ⟨"hp2", "sp2"⟩] : List ProxyEndpoint).getD 0
        defaultEndpoint) ∧
    (get_next_proxy ⟨[⟨"hp1", "sp1"⟩, ⟨"hp2", "sp2"⟩], 0,
        {"hp1_sp1", "hp2_sp2"}⟩).2.failed_proxies = ∅ :=
  C4_all_failed_reset _ (by decide) (by decide)

/-- C10: a `get_next_proxy` call made while every endpoint is failed leaves
the rotation index exactly where it was before the call: the scan advances
it `len(pool)` times, wrapping back to its starting value. -/
theorem C10_all_failed_index_unchanged (c : ProxyChain)
    (hidx : c.current_index < c.proxies.length)
    (hall : ∀ p ∈ c.proxies, proxy_id p ∈ c.failed_proxies) :
    (get_next_proxy c).2.current_index = c.current_index := by
  have hlen : 0 < c.proxies.length := lt_of_le_of_lt (Nat.zero_le _) hidx
  have hne : ¬ c.proxies.isEmpty = true := by
    simp [List.isEmpty_iff, List.ne_nil_of_length_pos hlen]
  rw [get_next_proxy, if_neg hne, scanChain_all_failed hall _ _ hidx]
  simp [Nat.add_mod_right, Nat.mod_eq_of_lt hidx]

theorem C10_all_failed_index_unchanged_witness :
    (get_next_proxy ⟨[⟨"ha", "sa"⟩, ⟨"hb", "sb"⟩, ⟨"hc", "sc"⟩], 1,
        {"ha_sa", "hb_sb", "hc_sc"}⟩).2.current_index = 1 :=
  C10_all_failed_index_unchanged _ (by decide) (by decide)

/-- C5: with an empty failed set and a pool of size `n ≥ 1`, `n` consecutive
`get_next_proxy` calls return the pool rotated to start at the current
index — every endpoint exactly once (the rotation is a permutation of the
pool) before any endpoint repeats. -/
theorem C5_round_robin (c : ProxyChain)
    (hidx : c.current_index < c.proxies.length)
    (hf : c.failed_proxies = ∅) :
    (runChain c c.proxies.length).1 =
      (c.proxies.rotate c.current_index).map some ∧
    (c.proxies.rotate c.current_index).Perm c.proxies := by
  refine ⟨?_, List.rotate_perm c.proxies c.current_index⟩
  rw [runChain_no_failed c.proxies.length c hidx hf]
  refine List.ext_getElem ?_ ?_
  · simp [List.length_rotate]
  · intro i h1 h2
    have hlen : 0 < c.proxies.length := lt_of_le_of_lt (Nat.zero_le _) hidx
    have hi : i < c.proxies.length := by simpa using h1
    have hmod : (c.current_index + i) % c.proxies.length < c.proxies.length :=
      Nat.mod_lt _ hlen
    simp only [List.getElem_map, List.getElem_range, List.getElem_rotate]
    rw [List.getD_eq_getElem?_getD, List.getElem?_eq_getElem hmod]
    simp [Nat.add_comm]

theorem C5_round_robin_witness :
    (runChain ⟨[⟨"ha", "sa"⟩, ⟨"hb", "sb"⟩, ⟨"hc", "sc"⟩], 1, ∅⟩ 3).1 =
      (([⟨"ha", "sa"⟩, ⟨"hb", "sb"⟩, ⟨"hc", "sc"⟩] :
        List ProxyEndpoint).rotate 1).map some ∧
    (([⟨"ha", "sa"⟩, ⟨"hb", "sb"⟩, ⟨"hc", "sc"⟩] :
        List ProxyEndpoint).rotate 1).Perm
      [⟨"ha", "sa"⟩, ⟨"hb", "sb"⟩, ⟨"hc", "sc"⟩] :=
  C5_round_robin _ (by decide) rfl

/-! ## Lemmas on the rate limiter -/

/-- On a sorted deque the front-trimming loop removes exactly the
timestamps strictly older than the window start. -/
lemma evict_eq_filter (w now : ℚ) :
    ∀ {l : List ℚ}, l.Sorted (· ≤ ·) →
      evict w now l = l.filter (fun t => decide (now - w ≤ t))
  | [], _ => rfl
  | t :: ts, hs => by
    rw [List.sorted_cons] at hs
    by_cases h : t < now - w
    · rw [evict, if_pos h, List.filter_cons,
        if_neg (by
          simp only [decide_eq_true_eq]
          exact not_le.mpr h),
        evict_eq_filter w now hs.2]
    · push_neg at h
      rw [evict, if_neg (not_lt.mpr h), List.filter_cons, if_pos (decide_eq_true h),
        List.filter_eq_self.mpr fun a ha => decide_eq_true (le_trans h (hs.1 a ha))]

lemma winCount_cons (w T : ℚ) (p : ℚ × Bool) (L : List (ℚ × Bool)) :
    winCount w T (p :: L) =
      (if (p.2 && inWindow w T p.1) = true then 1 else 0) + winCount w T L := by
  by_cases h : (p.2 && inWindow w T p.1) = true
  · simp [winCount, List.filter_cons, h, Nat.add_comm]
  · simp [winCount, List.filter_cons, h]

lemma length_filter_le_of_imp (l : List ℚ) (p q : ℚ → Bool)
    (h : ∀ a, p a = true → q a = true) :
    (l.filter p).length ≤ (l.filter q).length :=
  (List.monotone_filter_right l h).length_le

/-- C9: on every call, timestamps strictly older than `now - window_seconds`
are evicted from the front (on the sorted deque this removes exactly the
strictly-older ones), and a denied call stores the evicted deque with
nothing appended. -/
theorem C9_denied_stores_evicted (max_requests : ℕ) (w now : ℚ) (l : List ℚ)
    (hs : l.Sorted (· ≤ ·))
    (hd : (is_allowed max_requests w l now).1 = false) :
    (is_allowed max_requests w l now).2 =
      l.filter (fun t => decide (now - w ≤ t)) ∧
    ∀ t ∈ (is_allowed max_requests w l now).2, now - w ≤ t := by
  have he := evict_eq_filter w now hs
  simp only [is_allowed] at hd ⊢
  by_cases hlen : (evict w now l).length < max_requests
  · rw [if_pos hlen] at hd
    cases hd
  · rw [if_neg hlen] at hd ⊢
    refine ⟨he, fun t ht => ?_⟩
    rw [he] at ht
    simpa using (List.mem_filter.mp ht).2

theorem C9_denied_stores_evicted_witness :
    (is_allowed 1 60 [10] 20).2 =
      ([10] : List ℚ).filter (fun t => decide ((20 : ℚ) - 60 ≤ t)) ∧
    ∀ t ∈ (is_allowed 1 60 [10] 20).2, (20 : ℚ) - 60 ≤ t :=
  C9_denied_stores_evicted 1 60 20 [10] (List.sorted_singleton 10)
    (by norm_num [is_allowed, evict])

/-- The inductive heart of the sliding-window invariant: running the
limiter from a deque that equals the admitted history `A` filtered at some
cutoff `c` at most `t - w` below every upcoming call keeps every trailing
window of length `w` at or under `max_requests` admissions. -/
lemma rl_run_window_bound (max_requests : ℕ) (w : ℚ) (hw : 0 ≤ w) :
    ∀ (ts A : List ℚ) (c : ℚ),
      ts.Sorted (· ≤ ·) → A.Sorted (· ≤ ·) →
      (∀ a ∈ A, ∀ t ∈ ts, a ≤ t) →
      (∀ t ∈ ts, c ≤ t - w) →
      (∀ T', (A.filter (inWindow w T')).length ≤ max_requests) →
      ∀ T, (A.filter (inWindow w T)).length +
        winCount w T
          (rlRun max_requests w (A.filter (fun a => decide (c ≤ a))) ts).1 ≤
        max_requests := by
  intro ts
  induction ts with
  | nil =>
    intro A c _ _ _ _ hbound T
    simpa [rlRun, winCount] using hbound T
  | cons t ts ih =>
    intro A c hts hA hhist hcut hbound T
    rw [List.sorted_cons] at hts
    have hsA : (A.filter (fun a => decide (c ≤ a))).Sorted (· ≤ ·) := hA.filter _
    have hevict : evict w t (A.filter (fun a => decide (c ≤ a))) =
        A.filter (fun a => decide (t - w ≤ a)) := by
      rw [evict_eq_filter w t hsA, List.filter_filter]
      refine List.filter_congr fun a _ => ?_
      by_cases h1 : t - w ≤ a
      · have h2 : c ≤ a := le_trans (hcut t (List.mem_cons_self t ts)) h1
        simp [h1, h2]
      · simp [h1]
    have hcut2 : ∀ t' ∈ ts, t - w ≤ t' - w := fun t' ht' => by
      have := hts.1 t' ht'
      linarith
    by_cases hcase : (A.filter (fun a => decide (t - w ≤ a))).length < max_requests
    · -- the call at `t` is admitted
      have hstep : is_allowed max_requests w (A.filter (fun a => decide (c ≤ a))) t =
          (true, A.filter (fun a => decide (t - w ≤ a)) ++ [t]) := by
        simp only [is_allowed, hevict]
        rw [if_pos hcase]
      have happend : A.filter (fun a => decide (t - w ≤ a)) ++ [t] =
          (A ++ [t]).filter (fun a => decide (t - w ≤ a)) := by
        rw [List.filter_append]
        congr 1
        rw [List.filter_cons, if_pos (decide_eq_true (sub_le_self t hw)),
          List.filter_nil]
      have hA2 : (A ++ [t]).Sorted (· ≤ ·) := by
        rw [List.Sorted, List.pairwise_append]
        exact ⟨hA, List.sorted_singleton t, fun a ha b hb => by
          rw [List.mem_singleton] at hb
          rw [hb]
          exact hhist a ha t (List.mem_cons_self t ts)⟩
      have hhist2 : ∀ a ∈ A ++ [t], ∀ t' ∈ ts, a ≤ t' := by
        intro a ha t' ht'
        rcases List.mem_append.mp ha with h | h
        · exact hhist a h t' (List.mem_cons_of_mem t ht')
        · rw [List.mem_singleton] at h
          rw [h]
          exact hts.1 t' ht'
      have hbound2 : ∀ T', ((A ++ [t]).filter (inWindow w T')).length ≤
          max_requests := by
        intro T'
        rw [List.filter_append, List.length_append]
        by_cases hin : inWindow w T' t = true
        · have h1 : (A.filter (inWindow w T')).length ≤
              (A.filter (fun a => decide (t - w ≤ a))).length := by
            refine length_filter_le_of_imp A _ _ fun a ha => ?_
            simp only [inWindow, Bool.and_eq_true, decide_eq_true_eq] at ha hin
            rw [decide_eq_true_eq]
            linarith [hin.1, hin.2, ha.1, ha.2]
          have h2 : (([t] : List ℚ).filter (inWindow w T')).length ≤ 1 :=
            List.length_filter_le _ _
          omega
        · have hz : (([t] : List ℚ).filter (inWindow w T')).length = 0 := by
            simp [List.filter, hin]
          rw [hz]
          simpa using hbound T'
      have hrec := ih (A ++ [t]) (t - w) hts.2 hA2 hhist2 hcut2 hbound2 T
      rw [rlRun]
      simp only [hstep, happend, winCount_cons]
      rw [List.filter_append, List.length_append] at hrec
      by_cases hin : inWindow w T t = true
      · simp only [Bool.true_and, hin, eq_self_iff_true, if_true]
        have hone : (([t] : List ℚ).filter (inWindow w T)).length = 1 := by
          rw [List.filter_cons, if_pos hin, List.filter_nil]
          rfl
        omega
      · have hb : (true && inWindow w T t) = false := by simp [hin]
        simp only [hb, Bool.false_eq_true, if_false]
        have hzero : (([t] : List ℚ).filter (inWindow w T)).length = 0 := by
          rw [List.filter_cons, if_neg (by simp [hin]), List.filter_nil]
          rfl
        omega
    · -- the call at `t` is denied
      have hstep : is_allowed max_requests w (A.filter (fun a => decide (c ≤ a))) t =
          (false, A.filter (fun a => decide (t - w ≤ a))) := by
        simp only [is_allowed, hevict]
        rw [if_neg hcase]
      have hhist2 : ∀ a ∈ A, ∀ t' ∈ ts, a ≤ t' :=
        fun a ha t' ht' => hhist a ha t' (List.mem_cons_of_mem t ht')
      have hrec := ih A (t - w) hts.2 hA hhist2 hcut2 hbound T
      rw [rlRun]
      simp only [hstep, winCount_cons, Bool.false_and, Bool.false_eq_true, if_false]
      omega

/-- C2: for one identifier and any finite sequence of `is_allowed` calls at
non-decreasing times, the number of admitted calls whose times fall in any
trailing window of length `window_seconds` never exceeds `max_requests`. -/
theorem C2_sliding_window_invariant (max_requests : ℕ) (w : ℚ) (ts : List ℚ)
    (hw : 0 ≤ w) (hts : ts.Sorted (· ≤ ·)) (T : ℚ) :
    winCount w T (rlRun max_requests w [] ts).1 ≤ max_requests := by
  cases ts with
  | nil => simp [rlRun, winCount]
  | cons t ts =>
    have hcut : ∀ t' ∈ t :: ts, t - w ≤ t' - w := by
      intro t' ht'
      rcases List.mem_cons.mp ht' with rfl | h2
      · exact le_refl _
      · have := (List.sorted_cons.mp hts).1 t' h2
        linarith
    have h := rl_run_window_bound max_requests w hw (t :: ts) [] (t - w) hts
      List.sorted_nil (by simp) hcut (by simp) T
    simpa using h

theorem C2_sliding_window_invariant_witness :
    (0 : ℚ) ≤ 60 ∧ ([0, 10, 20, 61] : List ℚ).Sorted (· ≤ ·) ∧
    winCount 60 61 (rlRun 2 60 [] [0, 10, 20, 61]).1 ≤ 2 :=
  ⟨by norm_num, by norm_num [List.sorted_cons],
    C2_sliding_window_invariant 2 60 [0, 10, 20, 61] (by norm_num)
      (by norm_num [List.sorted_cons]) 61⟩

end IPMasks
